import Mathlib

/-
Verification of the UEFI string-handling core (src/data_types/chars.rs and
src/data_types/strs.rs).

Modelling conventions:
- Unicode scalar values, `u8` and `u16` units are modelled as `Nat`.
  A Rust `char` is a `Nat` that is a valid Unicode scalar value; `u8`/`u16`
  inputs carry range hypotheses in the theorems where they matter.
- A `&CStr<Char>` view is modelled as the list of integer units of the slice
  it wraps (legal because `Char8`/`Char16` are `repr(transparent)` over
  `u8`/`u16`, the layout-equivalence invariant of the module).
- A Rust `&str` input to `encode` is modelled as its extended-grapheme-cluster
  decomposition: a list of clusters, each a list of Unicode scalar values.
  The segmentation itself is produced by the external `unicode_segmentation`
  crate (UAX 29), which is not part of this repository; `encode` consumes the
  segmented form exactly as the source iterates `grapheme_indices(true)`.
  Byte offsets are recovered from UTF-8 lengths of the scalar values.
- `usize` arithmetic wraps modulo 2^64 (release-mode overflow semantics);
  slice indexing out of bounds is a panic, modelled by `Option` with `none`
  meaning the call does not return (panic).
-/

deriving instance DecidableEq for Except

/-- Error type of fallible character conversions, from chars.rs
(`CharConversionError`). -/
inductive CharConversionError where
  | TooWide
  | InvalidChar
deriving DecidableEq

/-- Errors of checked int-slice to CStr conversion, from strs.rs
(`FromIntsWithNulError`). -/
inductive FromIntsWithNulError where
  | InvalidChar (pos : Nat)
  | InteriorNul (pos : Nat)
  | NotNulTerminated
deriving DecidableEq

/-- Errors of Rust-to-UEFI string encoding, from strs.rs (`StrEncodeError`). -/
inductive StrEncodeError where
  | BufferTooSmall
  | UnsupportedChar (idx : Nat)
  | InteriorNul (idx : Nat)
deriving DecidableEq

/-- A character kind (an implementer of the `Character` trait of chars.rs):
its checked conversion from a Rust `char` and its checked conversion from its
integer representation.  Characters and integer units are carried as the
numeric value they store; `Into<IntRepr>` and `Into<char>` are identity
extractions of the stored value for both kinds, so they need no field. -/
structure CharKind where
  tryFromChar : Nat → Except CharConversionError Nat
  tryFromInt : Nat → Except CharConversionError Nat

/-- Rust `char::try_from(u32)` from the core library: succeeds exactly on
valid Unicode scalar values (below 0x110000 and outside the surrogate range
0xD800..=0xDFFF), returning the same numeric value. -/
def charTryFromU32 (v : Nat) : Option Nat :=
  if v < 0x110000 ∧ ¬(0xD800 ≤ v ∧ v ≤ 0xDFFF) then some v else none

/-- The `Char8` kind of chars.rs: `TryFrom<char>` succeeds iff the code point
is at most 0xff (else `TooWide`); `TryFrom<u8>` is derived from the infallible
`From<u8>` impl, so it always succeeds with the same value. -/
def char8Kind : CharKind where
  tryFromChar := fun c => if c ≤ 0xff then .ok c else .error .TooWide
  tryFromInt := fun i => .ok i

/-- The `TryFrom<char>` impl for `Char16` of chars.rs: succeeds iff the code
point is at most 0xffff (else `TooWide`). -/
def char16TryFromChar (c : Nat) : Except CharConversionError Nat :=
  if c ≤ 0xffff then .ok c else .error .TooWide

/-- The `TryFrom<u16>` impl for `Char16` of chars.rs: widen to `u32`, check
Unicode validity through `char::try_from` (failure becomes `InvalidChar`),
then feed the resulting char through `TryFrom<char>`. -/
def char16TryFromU16 (v : Nat) : Except CharConversionError Nat :=
  match charTryFromU32 v with
  | some ch => char16TryFromChar ch
  | none => .error .InvalidChar

/-- The `Char16` kind of chars.rs. -/
def char16Kind : CharKind where
  tryFromChar := char16TryFromChar
  tryFromInt := char16TryFromU16

/-- Loop body of `CStr::from_ints_with_nul` (strs.rs lines 49-67): iterate
over the codes with their position; a conversion failure reports
`InvalidChar(pos)`; a converted NUL at a position other than `codes.len() - 1`
reports `InteriorNul(pos)` and at the last position ends the scan with
success; exhausting the codes reports `NotNulTerminated`. -/
def fromIntsWithNulLoop (K : CharKind) (total : Nat) :
    List Nat → Nat → Except FromIntsWithNulError Unit
  | [], _ => .error .NotNulTerminated
  | code :: rest, pos =>
    match K.tryFromInt code with
    | .error _ => .error (.InvalidChar pos)
    | .ok c =>
      if c = 0 then
        if pos ≠ total - 1 then .error (.InteriorNul pos)
        else .ok ()
      else fromIntsWithNulLoop K total rest (pos + 1)

/-- `CStr::from_ints_with_nul` of strs.rs: on success the view wraps the whole
`codes` slice (`from_ints_with_nul_unchecked(codes)`). -/
def from_ints_with_nul (K : CharKind) (codes : List Nat) :
    Except FromIntsWithNulError (List Nat) :=
  match fromIntsWithNulLoop K codes.length codes 0 with
  | .ok _ => .ok codes
  | .error e => .error e

/-- `CStr::to_ints_slice_with_nul` of strs.rs: reinterpret the backing storage
as integer units, terminator included (identity under this modelling). -/
def to_ints_slice_with_nul (s : List Nat) : List Nat := s

/-- `CStr::to_ints_slice` of strs.rs: the integer units without the trailing
terminator (`&chars[..chars.len() - 1]`). -/
def to_ints_slice (s : List Nat) : List Nat :=
  (to_ints_slice_with_nul s).take ((to_ints_slice_with_nul s).length - 1)

/-- Reference scan written from the words of the specification of validating
construction: scan positions left to right; at each position, interpretation
failure reports `InvalidChar(position)`; an interpreted NUL at the last
position is success over the whole sequence and at a non-final position is
`InteriorNul(position)`; exhausting the sequence (including the empty
sequence) reports `NotNulTerminated`. -/
def validateSpecFrom (K : CharKind) (codes : List Nat) (pos : Nat) :
    Except FromIntsWithNulError (List Nat) :=
  if h : pos < codes.length then
    match K.tryFromInt (codes.get ⟨pos, h⟩) with
    | .error _ => .error (.InvalidChar pos)
    | .ok c =>
      if c = 0 then
        if pos = codes.length - 1 then .ok codes
        else .error (.InteriorNul pos)
      else validateSpecFrom K codes (pos + 1)
  else .error .NotNulTerminated
termination_by codes.length - pos

/-- Modulus of `usize` arithmetic on the 64-bit targets this firmware library
is built for. -/
def USIZE : Nat := 2 ^ 64

/-- UTF-8 byte length of a Unicode scalar value, used to recover the byte
offsets that `grapheme_indices` and `char_indices` report on a `&str`. -/
def utf8Len (c : Nat) : Nat :=
  if c < 0x80 then 1 else if c < 0x800 then 2 else if c < 0x10000 then 3 else 4

/-- Byte length of a run of Unicode scalar values (`str::len` of the slice
they spell in UTF-8). -/
def strLen (s : List Nat) : Nat := (s.map utf8Len).sum

/-- Byte length of a segmented input (`input.len()` in `encode`). -/
def inputByteLen (input : List (List Nat)) : Nat := (input.map strLen).sum

/-- Rust slice write `buffer[i] = v`: panics when `i` is out of bounds,
modelled as `none`. -/
def writeAt (buffer : List Nat) (i v : Nat) : Option (List Nat) :=
  if i < buffer.length then some (buffer.set i v) else none

/-- Modelled from the spec: `Char::CARRIAGE_RETURN` is required of the
`Character` trait by `encode` but its declaration is not among the provided
sources; the spec says line feeds are preceded by a carriage-return unit, so
its integer representation is 0x0D for both kinds. -/
def CARRIAGE_RETURN : Nat := 13

/-- Value of `buffer.len() - 1` in `encode` (strs.rs line 131) under wrapping
`usize` subtraction: for an empty buffer this underflows to `2^64 - 1`. -/
def bufferCapacity (buffer : List Nat) : Nat :=
  (buffer.length + (USIZE - 1)) % USIZE

/-- Outcome of running the inner code-point loop of `encode` on one grapheme
cluster: abort the whole call with an error, leave the grapheme loop
(`break` to the post-loop code) with the current buffer and output index, or
finish the cluster with the current buffer and output index. -/
inductive GraphemeStep where
  | err (e : StrEncodeError)
  | brk (buffer : List Nat) (output_idx : Nat)
  | done (buffer : List Nat) (output_idx : Nat)
deriving DecidableEq

/-- Line-ending translation step of `encode` (strs.rs lines 143-151): when the
scalar is a line feed, write a carriage return if output capacity remains
(panicking if the guarded index is still out of bounds), otherwise leave the
grapheme loop; other scalars pass through unchanged.  `none` is a panic,
`some none` leaves the grapheme loop, `some (some (b, oi))` continues with the
updated buffer and output index. -/
def lfStep (cap c : Nat) (buffer : List Nat) (output_idx : Nat) :
    Option (Option (List Nat × Nat)) :=
  if c = 10 then
    if output_idx < cap then
      (writeAt buffer output_idx CARRIAGE_RETURN).map
        (fun b => some (b, output_idx + 1))
    else some none
  else some (some (buffer, output_idx))

/-- Inner loop of `encode` over the code points of one grapheme cluster
(strs.rs lines 137-165). `input_idx` is the byte offset that
`grapheme.char_indices()` reports, i.e. the offset of the code point within
the grapheme, starting at 0 for each cluster.  A NUL scalar aborts with
`InteriorNul(input_idx)`; after line-ending translation, a failed conversion
aborts with `UnsupportedChar(input_idx)`; a converted unit is written if
capacity remains, else the grapheme loop is left. -/
def encodeGrapheme (K : CharKind) (cap : Nat) :
    List Nat → Nat → List Nat → Nat → Option GraphemeStep
  | [], _, buffer, output_idx => some (.done buffer output_idx)
  | c :: rest, input_idx, buffer, output_idx =>
    if c = 0 then some (.err (.InteriorNul input_idx))
    else
      match lfStep cap c buffer output_idx with
      | none => none
      | some none => some (.brk buffer output_idx)
      | some (some (buffer1, oi1)) =>
        match K.tryFromChar c with
        | .error _ => some (.err (.UnsupportedChar input_idx))
        | .ok output_char =>
          if oi1 < cap then
            match writeAt buffer1 oi1 output_char with
            | none => none
            | some buffer2 =>
              encodeGrapheme K cap rest (input_idx + utf8Len c) buffer2 (oi1 + 1)
          else some (.brk buffer1 oi1)

/-- Outer loop of `encode` over grapheme clusters (strs.rs lines 135-170).
`grapheme_idx` is the byte offset of the current cluster in the whole input;
after a cluster completes, the public cursors `parsed_input_len` and
`encoded_output_len` advance to the end of that cluster; leaving the inner
loop early keeps the previous cursors and the current (possibly partially
written) buffer. -/
def encodeGraphemes (K : CharKind) (cap : Nat) :
    List (List Nat) → Nat → List Nat → Nat → Nat → Nat →
    Option (Except StrEncodeError (Nat × Nat × List Nat))
  | [], _, buffer, parsed_input_len, encoded_output_len, _ =>
    some (.ok (parsed_input_len, encoded_output_len, buffer))
  | g :: rest, grapheme_idx, buffer, parsed_input_len, encoded_output_len,
      output_idx =>
    match encodeGrapheme K cap g 0 buffer output_idx with
    | none => none
    | some (.err e) => some (.error e)
    | some (.brk buf _) =>
      some (.ok (parsed_input_len, encoded_output_len, buf))
    | some (.done buf oi1) =>
      encodeGraphemes K cap rest (grapheme_idx + strLen g) buf
        (grapheme_idx + strLen g) oi1 oi1

/-- The `encode` function of strs.rs on a segmented input.  The result view is
the one the source builds: `from_ints_with_nul_unchecked(buffer)` over the
whole buffer after the terminator write at `encoded_output_len`.  The second
component models the returned `Option<&str>` remainder as the byte offset
`parsed_input_len` at which the unconsumed suffix starts, present exactly when
`parsed_input_len < input.len()`.  `none` is a panic. -/
def encode (K : CharKind) (input : List (List Nat)) (buffer : List Nat) :
    Option (Except StrEncodeError (List Nat × Option Nat)) :=
  match encodeGraphemes K (bufferCapacity buffer) input 0 buffer 0 0 0 with
  | none => none
  | some (.error e) => some (.error e)
  | some (.ok (parsed_input_len, encoded_output_len, buf)) =>
    if parsed_input_len = 0 ∧ ¬(inputByteLen input = 0) then
      some (.error .BufferTooSmall)
    else
      match writeAt buf encoded_output_len 0 with
      | none => none
      | some buf1 =>
        some (.ok (buf1,
          if parsed_input_len < inputByteLen input then some parsed_input_len
          else none))

/-- Claim C1: after a successful encode, the returned view was claimed to
cover exactly the committed output units plus one trailing NUL (length
committed + 1, last element NUL, no buffer units beyond the terminator).  The
code instead wraps the whole buffer: encoding the text "A" (scalar 65) into a
3-unit buffer prefilled with 9 returns a view over all three buffer units
[65, 0, 9], which is not the claimed 2-unit view [65, 0] and whose last
element is 9, not NUL. -/
theorem c1_view_spans_whole_buffer :
    encode char8Kind [[65]] [9, 9, 9] = some (.ok ([65, 0, 9], none)) ∧
    ([65, 0, 9] : List Nat) ≠ [65, 0] ∧
    ([65, 0, 9] : List Nat).getLast? ≠ some 0 := by decide

/-- Claim C2: an interior NUL was claimed to be reported at its byte offset
within the whole input, regardless of buffer size.  In the text "A" followed
by NUL the NUL sits at byte offset 1 (strLen [65] = 1), yet the code reports
`InteriorNul 0`, the offset of the NUL within its own grapheme cluster; and
with a 1-unit buffer the same text yields `BufferTooSmall` because capacity
runs out before the NUL is ever examined. -/
theorem c2_interior_nul_offset_is_local :
    encode char8Kind [[65], [0]] [9, 9, 9] =
      some (.error (.InteriorNul 0)) ∧
    strLen [65] = 1 ∧
    encode char8Kind [[65], [0]] [9] = some (.error .BufferTooSmall) := by
  decide

/-- Claim C3: an unconvertible scalar was claimed to be reported at its byte
offset within the whole input.  In the text "A" followed by the euro sign
(scalar 0x20AC, not representable in the narrow kind) the euro sign sits at
byte offset 1 (strLen [65] = 1), yet the code reports `UnsupportedChar 0`,
the offset of the scalar within its own grapheme cluster. -/
theorem c3_unsupported_char_offset_is_local :
    encode char8Kind [[65], [8364]] [9, 9, 9, 9] =
      some (.error (.UnsupportedChar 0)) ∧
    strLen [65] = 1 := by decide

/-- Claim C5: the partially written units of an uncommitted cluster were
claimed not to be part of the returned view.  Encoding "a" followed by the
single cluster e + combining acute + combining circumflex (scalars
[101, 769, 770]) into a 4-unit buffer commits only "a": the committed cursors
stay at byte 1 and the remainder correctly starts at byte offset 1, but the
returned view is the whole buffer [97, 0, 769, 7], which still contains the
partially written unit 769 beyond the terminator instead of being the
committed view [97, 0]. -/
theorem c5_uncommitted_units_remain_in_view :
    encode char16Kind [[97], [101, 769, 770]] [7, 7, 7, 7] =
      some (.ok ([97, 0, 769, 7], some 1)) ∧
    ([97, 0, 769, 7] : List Nat) ≠ [97, 0] ∧
    769 ∈ to_ints_slice_with_nul [97, 0, 769, 7] := by decide

/-- Claim C6 counterexample: encoding the non-empty text consisting of a
single NUL scalar into a buffer of capacity 1 does not fail with
`BufferTooSmall` as claimed; the NUL check precedes the capacity check, so the
call fails with `InteriorNul 0`. -/
theorem c6_nul_text_capacity_one :
    encode char8Kind [[0]] [9] = some (.error (.InteriorNul 0)) ∧
    encode char8Kind [[0]] [9] ≠ some (.error .BufferTooSmall) := by decide

/-- Claim C7: with a buffer merely large enough (not exactly sized), the
integer sequence exposed by the returned view was claimed to decode back to
the original text.  Encoding "A" into a 3-unit buffer prefilled with 66
returns the whole-buffer view [65, 0, 66]; its terminator-stripped integer
sequence is [65, 0], which is not the original text [65] — it carries a
spurious NUL (and in general arbitrary stale buffer units). -/
theorem c7_round_trip_fails_on_oversized_buffer :
    encode char8Kind [[65]] [66, 66, 66] = some (.ok ([65, 0, 66], none)) ∧
    to_ints_slice [65, 0, 66] = [65, 0] ∧
    ([65, 0] : List Nat) ≠ [65] := by decide

/-- Claim C10 counterexample: with a zero-length buffer the call was claimed
never to return a result value for any input; but for the input consisting of
a single NUL scalar the interior-NUL check fires before any buffer access, so
the call returns the ordinary error value `InteriorNul 0` instead of
panicking. -/
theorem c10_empty_buffer_can_return :
    encode char8Kind [[0]] [] = some (.error (.InteriorNul 0)) ∧
    encode char8Kind [[0]] [] ≠ none := by decide

/-- Claim C8: `Char16::try_from(u16)` fails with `InvalidChar` exactly on the
surrogate range 0xD800..=0xDFFF, and on every other 16-bit value it succeeds
with the same numeric value (so the identity `Into<u16>` extraction returns
the input value). -/
theorem c8_char16_try_from_u16 (v : Nat) (hv : v < 65536) :
    (0xD800 ≤ v ∧ v ≤ 0xDFFF → char16TryFromU16 v = .error .InvalidChar) ∧
    (¬(0xD800 ≤ v ∧ v ≤ 0xDFFF) → char16TryFromU16 v = .ok v) := by
  constructor
  · intro hs
    unfold char16TryFromU16 charTryFromU32
    rw [if_neg (by omega)]
  · intro hs
    unfold char16TryFromU16 charTryFromU32
    rw [if_pos ⟨by omega, hs⟩]
    show char16TryFromChar v = .ok v
    unfold char16TryFromChar
    rw [if_pos (by omega)]

/-- Witness for claim C8: the first surrogate value fails with `InvalidChar`
and the value 65 converts to itself. -/
theorem c8_witness :
    char16TryFromU16 0xD800 = .error .InvalidChar ∧
    char16TryFromU16 65 = .ok 65 :=
  ⟨(c8_char16_try_from_u16 0xD800 (by decide)).1 (by decide),
   (c8_char16_try_from_u16 65 (by decide)).2 (by decide)⟩

/-- Claim C9: whenever `from_ints_with_nul` succeeds with view `v`, the
accessor `to_ints_slice_with_nul` returns the original codes (terminator
included) and `to_ints_slice` returns the codes with the final element
removed. -/
theorem c9_int_view_accessors (K : CharKind) (codes v : List Nat)
    (h : from_ints_with_nul K codes = .ok v) :
    to_ints_slice_with_nul v = codes ∧ to_ints_slice v = codes.dropLast := by
  have hv : v = codes := by
    unfold from_ints_with_nul at h
    cases hL : fromIntsWithNulLoop K codes.length codes 0 with
    | ok u => rw [hL] at h; exact (Except.ok.inj h).symm
    | error e => rw [hL] at h; exact absurd h (by simp)
  subst hv
  refine ⟨rfl, ?_⟩
  show v.take (v.length - 1) = v.dropLast
  exact (List.dropLast_eq_take v).symm

/-- Witness for claim C9 at the codes [65, 66, 0] for the wide kind. -/
theorem c9_witness :
    to_ints_slice_with_nul [65, 66, 0] = [65, 66, 0] ∧
    to_ints_slice [65, 66, 0] = ([65, 66, 0] : List Nat).dropLast :=
  c9_int_view_accessors char16Kind [65, 66, 0] [65, 66, 0] (by decide)

/-- The position-indexed loop of `from_ints_with_nul`, run on the suffix of
`codes` starting at `pos`, agrees with the scan that the specification
describes. -/
theorem fromIntsLoop_eq_spec (K : CharKind) (codes : List Nat) :
    ∀ (rest : List Nat) (pos : Nat), rest = codes.drop pos →
      validateSpecFrom K codes pos =
        (match fromIntsWithNulLoop K codes.length rest pos with
         | .ok _ => Except.ok codes
         | .error e => Except.error e) := by
  intro rest
  induction rest with
  | nil =>
    intro pos h
    have hlen : codes.length ≤ pos := List.drop_eq_nil_iff.mp h.symm
    unfold validateSpecFrom
    rw [dif_neg (by omega)]
    rfl
  | cons c rest ih =>
    intro pos h
    have hlen : rest.length + 1 = codes.length - pos := by
      have hl := List.length_drop pos codes
      rw [← h] at hl
      simpa using hl
    have hpos : pos < codes.length := by omega
    have hget : codes.get ⟨pos, hpos⟩ = c := by
      have h0 : (codes.drop pos)[0]? = some c := by rw [← h]; simp
      rw [List.getElem?_drop] at h0
      rw [List.getElem?_eq_getElem (by omega)] at h0
      simpa using Option.some.inj h0
    have hdrop : codes.drop (pos + 1) = rest := by
      have hdd := List.drop_drop 1 pos codes
      rw [← hdd, ← h]
      rfl
    unfold validateSpecFrom
    rw [dif_pos hpos, hget]
    rw [fromIntsWithNulLoop]
    cases htc : K.tryFromInt c with
    | error e => rfl
    | ok ch =>
      show (if ch = 0 then
              if pos = codes.length - 1 then Except.ok codes
              else Except.error (.InteriorNul pos)
            else validateSpecFrom K codes (pos + 1)) =
        (match (if ch = 0 then
                  if pos ≠ codes.length - 1 then
                    Except.error (FromIntsWithNulError.InteriorNul pos)
                  else Except.ok ()
                else fromIntsWithNulLoop K codes.length rest (pos + 1)) with
          | .ok _ => Except.ok codes
          | .error e => Except.error e)
      by_cases hch : ch = 0
      · rw [if_pos hch, if_pos hch]
        by_cases hlast : pos = codes.length - 1
        · rw [if_pos hlast, if_neg (by omega : ¬pos ≠ codes.length - 1)]
        · rw [if_neg hlast, if_pos hlast]
      · rw [if_neg hch, if_neg hch]
        exact ih (pos + 1) hdrop.symm

/-- Claim C4: the validating constructor scans left to right with the claimed
per-position priority (earliest failing interpretation reports `InvalidChar`,
an interpreted NUL reports `InteriorNul` unless it sits at the final position,
where the whole sequence is accepted, and an exhausted scan reports
`NotNulTerminated`): for every kind and code sequence, `from_ints_with_nul`
equals the scan written from the words of the specification, and the four
concrete examples of the claim hold for the wide kind. -/
theorem c4_validating_constructor :
    (∀ (K : CharKind) (codes : List Nat),
        from_ints_with_nul K codes = validateSpecFrom K codes 0) ∧
    from_ints_with_nul char16Kind [65, 66, 0] = .ok [65, 66, 0] ∧
    from_ints_with_nul char16Kind [65, 0, 66, 0] = .error (.InteriorNul 1) ∧
    from_ints_with_nul char16Kind [65, 66] = .error .NotNulTerminated ∧
    from_ints_with_nul char16Kind [] = .error .NotNulTerminated := by
  refine ⟨?_, by decide, by decide, by decide, by decide⟩
  intro K codes
  rw [fromIntsLoop_eq_spec K codes codes 0 (by simp)]
  rfl

/-- A successful slice write preserves the buffer length. -/
theorem writeAt_length (buf : List Nat) (i v : Nat) (b : List Nat)
    (h : writeAt buf i v = some b) : b.length = buf.length := by
  unfold writeAt at h
  by_cases hi : i < buf.length
  · rw [if_pos hi] at h
    rw [← Option.some.inj h]
    simp
  · rw [if_neg hi] at h
    exact absurd h (by simp)

/-- The line-ending translation step preserves the buffer length when it
continues. -/
theorem lfStep_length (cap c : Nat) (buf : List Nat) (oi : Nat)
    (b1 : List Nat) (o1 : Nat)
    (h : lfStep cap c buf oi = some (some (b1, o1))) : b1.length = buf.length := by
  unfold lfStep at h
  by_cases h10 : c = 10
  · rw [if_pos h10] at h
    by_cases hlt : oi < cap
    · rw [if_pos hlt] at h
      cases hw : writeAt buf oi CARRIAGE_RETURN with
      | none => rw [hw] at h; exact absurd h (by simp)
      | some b =>
        rw [hw] at h
        simp at h
        rw [← h.1]
        exact writeAt_length buf oi CARRIAGE_RETURN b hw
    · rw [if_neg hlt] at h
      exact absurd h (by simp)
  · rw [if_neg h10] at h
    simp at h
    rw [← h.1]

/-- When the guarded index is in range, the line-ending translation step never
panics and never escapes the grapheme loop except by running out of
capacity. -/
theorem lfStep_progress (cap c : Nat) (buf : List Nat) (oi : Nat)
    (hoi : oi ≤ cap) (hcap : cap < buf.length) :
    lfStep cap c buf oi = some none ∨
    (∃ b o, lfStep cap c buf oi = some (some (b, o)) ∧
      b.length = buf.length ∧ o ≤ cap) := by
  unfold lfStep
  by_cases h10 : c = 10
  · rw [if_pos h10]
    by_cases hlt : oi < cap
    · right
      refine ⟨buf.set oi CARRIAGE_RETURN, oi + 1, ?_, by simp, by omega⟩
      rw [if_pos hlt]
      unfold writeAt
      rw [if_pos (by omega)]
      rfl
    · left
      rw [if_neg hlt]
  · right
    exact ⟨buf, oi, by rw [if_neg h10], rfl, hoi⟩

/-- Unconditional facts about any value the inner grapheme loop returns, as a
predicate over the outcome: a reported error is never `BufferTooSmall` (the
loop only raises the two character-level errors), and both a break and a
completion hand back a buffer of the same length as the one supplied. -/
def stepInv (buf : List Nat) : GraphemeStep → Prop
  | .err e => e ≠ .BufferTooSmall
  | .brk b _ => b.length = buf.length
  | .done b _ => b.length = buf.length

/-- Every returned (non-panicking) outcome of the inner grapheme loop
satisfies `stepInv`: it never reports `BufferTooSmall` and it preserves the
buffer length. -/
theorem encodeGrapheme_some_inv (K : CharKind) (cap : Nat) :
    ∀ (cs : List Nat) (idx : Nat) (buf : List Nat) (oi : Nat)
      (r : GraphemeStep),
      encodeGrapheme K cap cs idx buf oi = some r → stepInv buf r := by
  intro cs
  induction cs with
  | nil =>
    intro idx buf oi r h
    rw [encodeGrapheme] at h
    cases Option.some.inj h
    simp [stepInv]
  | cons c rest ih =>
    intro idx buf oi r h
    rw [encodeGrapheme] at h
    split at h
    · cases Option.some.inj h
      simp [stepInv]
    · split at h
      · exact absurd h (by simp)
      · cases Option.some.inj h
        simp [stepInv]
      · rename_i b1 oi1 heq
        split at h
        · cases Option.some.inj h
          simp [stepInv]
        · split at h
          · split at h
            · exact absurd h (by simp)
            · rename_i buffer2 heq2
              have hinv := ih _ _ _ _ h
              have h1 : b1.length = buf.length :=
                lfStep_length _ _ _ _ _ _ heq
              have h2 : buffer2.length = b1.length :=
                writeAt_length _ _ _ _ heq2
              cases r with
              | err e => exact hinv
              | brk b o =>
                simp only [stepInv] at hinv ⊢
                omega
              | done b o =>
                simp only [stepInv] at hinv ⊢
                omega
          · cases Option.some.inj h
            simp only [stepInv]
            exact lfStep_length _ _ _ _ _ _ heq

/-- Unconditional facts about any value the grapheme loop of `encode` returns:
an error outcome is never `BufferTooSmall`, and a normal loop exit hands back
a buffer of the same length as the one supplied. -/
def loopInv (buf : List Nat) : Except StrEncodeError (Nat × Nat × List Nat) → Prop
  | .error e => e ≠ .BufferTooSmall
  | .ok (_, _, b) => b.length = buf.length

/-- Every returned (non-panicking) outcome of the grapheme loop satisfies
`loopInv`. -/
theorem encodeGraphemes_some_inv (K : CharKind) (cap : Nat) :
    ∀ (gs : List (List Nat)) (gidx : Nat) (buf : List Nat)
      (parsed enc oi : Nat) (r : Except StrEncodeError (Nat × Nat × List Nat)),
      encodeGraphemes K cap gs gidx buf parsed enc oi = some r →
      loopInv buf r := by
  intro gs
  induction gs with
  | nil =>
    intro gidx buf parsed enc oi r h
    rw [encodeGraphemes] at h
    cases Option.some.inj h
    simp [loopInv]
  | cons g rest ih =>
    intro gidx buf parsed enc oi r h
    rw [encodeGraphemes] at h
    split at h
    · exact absurd h (by simp)
    · rename_i e heq
      cases Option.some.inj h
      have hs := encodeGrapheme_some_inv K cap g 0 buf oi _ heq
      simpa [loopInv, stepInv] using hs
    · rename_i bufB x heq
      cases Option.some.inj h
      have hs := encodeGrapheme_some_inv K cap g 0 buf oi _ heq
      simpa [loopInv, stepInv] using hs
    · rename_i bufD oi1 heq
      have hrec := ih _ _ _ _ _ _ h
      have hlen := encodeGrapheme_some_inv K cap g 0 buf oi _ heq
      simp only [stepInv] at hlen
      cases r with
      | error e => exact hrec
      | ok t =>
        obtain ⟨p, en, b⟩ := t
        simp only [loopInv] at hrec ⊢
        omega

/-- One-step reduction of the inner grapheme loop on a non-NUL scalar whose
line-ending translation continues with buffer `b1` and output index `o1`. -/
theorem encodeGrapheme_cons_reduce (K : CharKind) (cap c : Nat)
    (rest : List Nat) (idx : Nat) (buf : List Nat) (oi : Nat)
    (b1 : List Nat) (o1 : Nat) (hc : ¬c = 0)
    (hsome : lfStep cap c buf oi = some (some (b1, o1))) :
    encodeGrapheme K cap (c :: rest) idx buf oi =
      (match K.tryFromChar c with
       | .error _ => some (.err (.UnsupportedChar idx))
       | .ok output_char =>
         if o1 < cap then
           match writeAt b1 o1 output_char with
           | none => none
           | some buffer2 =>
             encodeGrapheme K cap rest (idx + utf8Len c) buffer2 (o1 + 1)
         else some (.brk b1 o1)) := by
  rw [encodeGrapheme, if_neg hc, hsome]

/-- Capacity facts about an outcome of the inner grapheme loop: breaks and
completions report an output index within capacity. -/
def stepCapInv (cap : Nat) : GraphemeStep → Prop
  | .err _ => True
  | .brk _ o => o ≤ cap
  | .done _ o => o ≤ cap

/-- When the output index is within capacity and the capacity is below the
buffer length, the inner grapheme loop never panics, and its outcome keeps
the output index within capacity. -/
theorem encodeGrapheme_progress (K : CharKind) (cap : Nat) :
    ∀ (cs : List Nat) (idx : Nat) (buf : List Nat) (oi : Nat),
      oi ≤ cap → cap < buf.length →
      ∃ r, encodeGrapheme K cap cs idx buf oi = some r ∧ stepCapInv cap r := by
  intro cs
  induction cs with
  | nil =>
    intro idx buf oi hoi hcap
    exact ⟨.done buf oi, by rw [encodeGrapheme], hoi⟩
  | cons c rest ih =>
    intro idx buf oi hoi hcap
    by_cases hc : c = 0
    · refine ⟨.err (.InteriorNul idx), ?_, trivial⟩
      rw [encodeGrapheme, if_pos hc]
    · rcases lfStep_progress cap c buf oi hoi hcap with hbrk |
        ⟨b1, o1, hsome, hlen1, ho1⟩
      · refine ⟨.brk buf oi, ?_, hoi⟩
        rw [encodeGrapheme, if_neg hc, hbrk]
      · rw [encodeGrapheme_cons_reduce K cap c rest idx buf oi b1 o1 hc hsome]
        cases htc : K.tryFromChar c with
        | error e =>
          exact ⟨.err (.UnsupportedChar idx), rfl, trivial⟩
        | ok oc =>
          by_cases hlt : o1 < cap
          · have hw : writeAt b1 o1 oc = some (b1.set o1 oc) := by
              unfold writeAt
              rw [if_pos (by omega)]
            obtain ⟨r, hr, hrinv⟩ :=
              ih (idx + utf8Len c) (b1.set o1 oc) (o1 + 1) (by omega)
                (by rw [List.length_set]; omega)
            refine ⟨r, ?_, hrinv⟩
            show (if o1 < cap then
                    match writeAt b1 o1 oc with
                    | none => none
                    | some buffer2 =>
                      encodeGrapheme K cap rest (idx + utf8Len c) buffer2 (o1 + 1)
                  else some (.brk b1 o1)) = some r
            rw [if_pos hlt, hw]
            exact hr
          · refine ⟨.brk b1 o1, ?_, ho1⟩
            show (if o1 < cap then
                    match writeAt b1 o1 oc with
                    | none => none
                    | some buffer2 =>
                      encodeGrapheme K cap rest (idx + utf8Len c) buffer2 (o1 + 1)
                  else some (.brk b1 o1)) = some (.brk b1 o1)
            rw [if_neg hlt]

/-- Capacity facts about a normal exit of the grapheme loop of `encode`: the
committed output length stays within capacity. -/
def exitCapInv (cap : Nat) : Except StrEncodeError (Nat × Nat × List Nat) → Prop
  | .error _ => True
  | .ok (_, en, _) => en ≤ cap

/-- When output index and committed output length are within capacity and the
capacity is below the buffer length, the grapheme loop of `encode` never
panics, and a normal exit keeps the committed output length within
capacity. -/
theorem encodeGraphemes_progress (K : CharKind) (cap : Nat) :
    ∀ (gs : List (List Nat)) (gidx : Nat) (buf : List Nat)
      (parsed enc oi : Nat),
      oi ≤ cap → enc ≤ cap → cap < buf.length →
      ∃ r, encodeGraphemes K cap gs gidx buf parsed enc oi = some r ∧
        exitCapInv cap r := by
  intro gs
  induction gs with
  | nil =>
    intro gidx buf parsed enc oi _ henc _
    exact ⟨.ok (parsed, enc, buf), by rw [encodeGraphemes], henc⟩
  | cons g rest ih =>
    intro gidx buf parsed enc oi hoi henc hcap
    obtain ⟨r1, hr1, hinv1⟩ := encodeGrapheme_progress K cap g 0 buf oi hoi hcap
    have hlen := encodeGrapheme_some_inv K cap g 0 buf oi r1 hr1
    cases r1 with
    | err e =>
      refine ⟨.error e, ?_, trivial⟩
      rw [encodeGraphemes, hr1]
    | brk b o =>
      refine ⟨.ok (parsed, enc, b), ?_, henc⟩
      rw [encodeGraphemes, hr1]
    | done b o =>
      simp only [stepInv] at hlen
      simp only [stepCapInv] at hinv1
      obtain ⟨r, hr, hrinv⟩ :=
        ih (gidx + strLen g) b (gidx + strLen g) o o hinv1 hinv1 (by omega)
      refine ⟨r, ?_, hrinv⟩
      rw [encodeGraphemes, hr1]
      exact hr

/-- Every Unicode scalar value occupies at least one byte in UTF-8. -/
theorem utf8Len_pos (c : Nat) : 1 ≤ utf8Len c := by
  unfold utf8Len
  split_ifs <;> omega

/-- Byte length of a segmented input, one cluster peeled off. -/
theorem inputByteLen_cons (g : List Nat) (gs : List (List Nat)) :
    inputByteLen (g :: gs) = strLen g + inputByteLen gs := by
  simp [inputByteLen]

/-- Byte length of a cluster, one scalar peeled off. -/
theorem strLen_cons (c : Nat) (g : List Nat) :
    strLen (c :: g) = utf8Len c + strLen g := by
  simp [strLen]

/-- `encode` reports `BufferTooSmall` exactly when its grapheme loop exits
normally having committed no input (`parsed_input_len = 0`) and the input is
non-empty. -/
theorem encode_bts_iff (K : CharKind) (input : List (List Nat))
    (buf0 : List Nat) :
    encode K input buf0 = some (.error .BufferTooSmall) ↔
      ((∃ en b, encodeGraphemes K (bufferCapacity buf0) input 0 buf0 0 0 0 =
          some (.ok (0, en, b))) ∧ inputByteLen input ≠ 0) := by
  constructor
  · intro hEq
    unfold encode at hEq
    split at hEq
    · exact absurd hEq (by simp)
    · rename_i e heq
      have he : e = .BufferTooSmall := Except.error.inj (Option.some.inj hEq)
      subst he
      have hinv := encodeGraphemes_some_inv K (bufferCapacity buf0) input
        0 buf0 0 0 0 _ heq
      simp [loopInv] at hinv
    · rename_i p en b heq
      split at hEq
      · rename_i hcond
        exact ⟨⟨en, b, hcond.1 ▸ heq⟩, hcond.2⟩
      · split at hEq
        · exact absurd hEq (by simp)
        · exact absurd hEq (by simp)
  · rintro ⟨⟨en, b, heq⟩, hne⟩
    unfold encode
    rw [heq]
    show (if (0 : Nat) = 0 ∧ ¬inputByteLen input = 0 then
            some (Except.error StrEncodeError.BufferTooSmall)
          else
            match writeAt b en 0 with
            | none => none
            | some buf1 =>
              some (Except.ok (buf1,
                if 0 < inputByteLen input then some 0 else none))) =
      some (Except.error StrEncodeError.BufferTooSmall)
    rw [if_pos ⟨rfl, hne⟩]

/-- Claim C6 (amended): the claim is true only in the absence of
character-level errors, which are checked before capacity.  Amended statement:
encoding a non-empty text whose first scalar is neither NUL nor unconvertible
into a buffer of capacity 1 fails with `BufferTooSmall`; and in general the
call returns `BufferTooSmall` exactly when the cluster loop exits without a
character-level error having committed nothing and the input is non-empty. -/
theorem c6_buffer_too_small_amended (K : CharKind) (c : Nat)
    (g : List Nat) (gs : List (List Nat)) (buffer : List Nat)
    (hbuf : buffer.length = 1) (hc : ¬c = 0)
    (hconv : c = 10 ∨ ∃ oc, K.tryFromChar c = .ok oc) :
    encode K ((c :: g) :: gs) buffer = some (.error .BufferTooSmall) ∧
    (∀ (K2 : CharKind) (input : List (List Nat)) (buf0 : List Nat),
      encode K2 input buf0 = some (.error .BufferTooSmall) ↔
        ((∃ en b, encodeGraphemes K2 (bufferCapacity buf0) input 0 buf0 0 0 0 =
            some (.ok (0, en, b))) ∧ inputByteLen input ≠ 0)) := by
  refine ⟨?_, fun K2 input buf0 => encode_bts_iff K2 input buf0⟩
  have hcap0 : bufferCapacity buffer = 0 := by
    unfold bufferCapacity
    rw [hbuf]
    decide
  have hstep : encodeGrapheme K 0 (c :: g) 0 buffer 0 = some (.brk buffer 0) := by
    by_cases h10 : c = 10
    · have hlf : lfStep 0 c buffer 0 = some none := by
        unfold lfStep
        rw [if_pos h10, if_neg (by omega)]
      rw [encodeGrapheme, if_neg hc, hlf]
    · have hlf : lfStep 0 c buffer 0 = some (some (buffer, 0)) := by
        unfold lfStep
        rw [if_neg h10]
      rcases hconv with h10c | ⟨oc, hoc⟩
      · exact absurd h10c h10
      · rw [encodeGrapheme_cons_reduce K 0 c g 0 buffer 0 buffer 0 hc hlf, hoc]
        show (if (0 : Nat) < 0 then
                match writeAt buffer 0 oc with
                | none => none
                | some buffer2 =>
                  encodeGrapheme K 0 g (0 + utf8Len c) buffer2 (0 + 1)
              else some (.brk buffer 0)) = some (.brk buffer 0)
        rw [if_neg (by omega)]
  have hloop : encodeGraphemes K 0 ((c :: g) :: gs) 0 buffer 0 0 0 =
      some (.ok (0, 0, buffer)) := by
    rw [encodeGraphemes, hstep]
  have hne : inputByteLen ((c :: g) :: gs) ≠ 0 := by
    rw [inputByteLen_cons, strLen_cons]
    have := utf8Len_pos c
    omega
  unfold encode
  rw [hcap0, hloop]
  show (if (0 : Nat) = 0 ∧ ¬inputByteLen ((c :: g) :: gs) = 0 then
          some (Except.error StrEncodeError.BufferTooSmall)
        else
          match writeAt buffer 0 0 with
          | none => none
          | some buf1 =>
            some (Except.ok (buf1,
              if 0 < inputByteLen ((c :: g) :: gs) then some 0 else none))) =
    some (Except.error StrEncodeError.BufferTooSmall)
  rw [if_pos ⟨rfl, hne⟩]

/-- Witness for claim C6 at the narrow kind, the text "A" and a buffer of one
unit. -/
theorem c6_witness :
    encode char8Kind [[65]] [9] = some (.error .BufferTooSmall) ∧
    (∀ (K2 : CharKind) (input : List (List Nat)) (buf0 : List Nat),
      encode K2 input buf0 = some (.error .BufferTooSmall) ↔
        ((∃ en b, encodeGraphemes K2 (bufferCapacity buf0) input 0 buf0 0 0 0 =
            some (.ok (0, en, b))) ∧ inputByteLen input ≠ 0)) :=
  c6_buffer_too_small_amended char8Kind 65 [] [] [9] rfl (by decide)
    (Or.inr ⟨65, by decide⟩)

/-- With an empty caller buffer, `encode` can never return a success value:
either a character-level error is reported before any buffer access, or the
wrapped capacity lets a buffer write (or the final terminator write) index out
of bounds, which is a panic. -/
theorem encode_empty_buffer_no_ok (K : CharKind) (gs : List (List Nat))
    (res : List Nat × Option Nat) :
    encode K gs [] ≠ some (.ok res) := by
  intro hEq
  unfold encode at hEq
  split at hEq
  · exact absurd hEq (by simp)
  · exact absurd hEq (by simp)
  · rename_i p en b heq
    have hinv := encodeGraphemes_some_inv K (bufferCapacity []) gs
      0 [] 0 0 0 _ heq
    simp only [loopInv] at hinv
    have hb : b = [] := List.eq_nil_of_length_eq_zero (by simpa using hinv)
    subst hb
    split at hEq
    · exact absurd hEq (by simp)
    · split at hEq
      · exact absurd hEq (by simp)
      · rename_i buf1 heq2
        have hw : writeAt [] en 0 = none := by
          unfold writeAt
          rw [if_neg (by simp)]
        rw [hw] at heq2
        exact absurd heq2 (by simp)

/-- Claim C10 (amended): with a zero-length buffer `encode` never returns a
success value — the wrapped `buffer.len() - 1` lets a buffer index go out of
bounds, so the call panics, unless a character-level error (interior NUL or
unsupported character) aborts it with an ordinary error value before the
first buffer access.  Non-panicking success indeed requires a buffer of
length at least 1, and conversely every call with a buffer of length at least
1 (and at most `usize` many units, as any Rust slice is) returns without
panicking. -/
theorem c10_zero_buffer_amended (K : CharKind) (gs : List (List Nat))
    (buffer : List Nat) (h1 : 1 ≤ buffer.length)
    (h2 : buffer.length ≤ USIZE) :
    (encode K gs buffer).isSome = true ∧
    (∀ (K2 : CharKind) (input : List (List Nat))
        (res : List Nat × Option Nat), encode K2 input [] ≠ some (.ok res)) := by
  refine ⟨?_, fun K2 input res => encode_empty_buffer_no_ok K2 input res⟩
  have hU : USIZE = 18446744073709551616 := by norm_num [USIZE]
  have hcap : bufferCapacity buffer = buffer.length - 1 := by
    unfold bufferCapacity
    have he : buffer.length + (USIZE - 1) = (buffer.length - 1) + USIZE := by
      omega
    rw [he, Nat.add_mod_right, Nat.mod_eq_of_lt (by omega)]
  obtain ⟨r, hr, hrinv⟩ := encodeGraphemes_progress K (bufferCapacity buffer)
    gs 0 buffer 0 0 0 (Nat.zero_le _) (Nat.zero_le _) (by omega)
  have hlinv := encodeGraphemes_some_inv K (bufferCapacity buffer) gs
    0 buffer 0 0 0 _ hr
  cases r with
  | error e =>
    unfold encode
    rw [hr]
    rfl
  | ok t =>
    obtain ⟨p, en, b⟩ := t
    simp only [loopInv] at hlinv
    simp only [exitCapInv] at hrinv
    unfold encode
    rw [hr]
    show (if p = 0 ∧ ¬inputByteLen gs = 0 then
            some (Except.error StrEncodeError.BufferTooSmall)
          else
            match writeAt b en 0 with
            | none => none
            | some buf1 =>
              some (Except.ok (buf1,
                if p < inputByteLen gs then some p else none))).isSome = true
    by_cases hcond : p = 0 ∧ ¬inputByteLen gs = 0
    · rw [if_pos hcond]
      rfl
    · rw [if_neg hcond]
      have hw : writeAt b en 0 = some (b.set en 0) := by
        unfold writeAt
        rw [if_pos (by omega)]
      rw [hw]
      rfl

/-- Witness for claim C10: encoding the text "A" into a 2-unit buffer returns
a value, and the empty-buffer impossibility of success holds. -/
theorem c10_witness :
    (encode char8Kind [[65]] [9, 9]).isSome = true ∧
    (∀ (K2 : CharKind) (input : List (List Nat))
        (res : List Nat × Option Nat), encode K2 input [] ≠ some (.ok res)) :=
  c10_zero_buffer_amended char8Kind [[65]] [9, 9] (by decide) (by decide)
